import Mathlib

/-!
A shallow embedding of the CSS animation/transition engine in
WebCore/page/AnimationController.cpp (the AnimationBase state machine,
the property blend functions, the property-wrapper registry, and the
CompositeAnimation / AnimationController drivers), together with proofs
about the embedded definitions.

C++ `double` values are modelled as exact rationals (ℚ); machine `int`
narrowing casts are modelled by truncation toward zero on ℚ.
-/

namespace WebCoreAnim


/-- Truncation of a rational toward zero, the behaviour of a C cast from
`double` to `int` (for values representable in the target type). -/
def qtrunc (x : ℚ) : ℤ :=
  if 0 ≤ x then ⌊x⌋ else ⌈x⌉

/-- C `fmod`: `fmod a b = a - b * trunc (a / b)`.  `fmod x 0` is NaN in C;
the embedding returns 0 there (no claim depends on that case). -/
def qfmod (a b : ℚ) : ℚ :=
  if b = 0 then 0 else a - b * (qtrunc (a / b) : ℚ)

/-- The timing function attached to a declaration: linear, or a cubic
bezier given by its two control points (src: Animation's TimingFunction,
consumed by AnimationBase::progress). -/
inductive TimingFn where
  | linear : TimingFn
  | bezier (x1 y1 x2 y2 : ℚ) : TimingFn
deriving DecidableEq, Repr

/-- One keyframe of a KeyframeList: a key in [0,1] and the partial style
at that key (src: KeyframeValue). -/
structure KeyframeValue (σ : Type) where
  key : ℚ
  style : σ
deriving DecidableEq, Repr

/-- The Animation declaration object an AnimationBase references
(duration, delay, iteration count, direction, timing function, target
property, play state, name, keyframe list).  `direction = true` is the
alternate direction; `playState = true` is AnimPlayStatePlaying.
`declId` stands for the declaration's identity used by
Animation::animationsMatch (that comparison itself lives in Animation.h,
outside these sources). -/
structure Anim (σ : Type) where
  duration : ℚ
  delay : ℚ
  iterationCount : ℚ
  direction : Bool
  timing : TimingFn
  property : ℤ
  playState : Bool
  name : ℕ
  declId : ℕ
  isValidAnimation : Bool
  keyframeList : Option (List (KeyframeValue σ))
  keyframeProps : List ℤ
deriving DecidableEq

/-- The AnimationBase state enum (src: AnimationBase::AnimState). -/
inductive AnimState where
  | NEW
  | START_WAIT_TIMER
  | START_WAIT_STYLE_AVAILABLE
  | START_WAIT_RESPONSE
  | LOOPING
  | ENDING
  | PAUSED_WAIT_TIMER
  | PAUSED_WAIT_RESPONSE
  | PAUSED_RUN
  | DONE
deriving DecidableEq, Repr

/-- The AnimationBase state-machine inputs (src: AnimationBase::AnimStateInput). -/
inductive AnimInput where
  | MAKE_NEW
  | START_ANIMATION
  | RESTART_ANIMATION
  | START_TIMER_FIRED
  | STYLE_AVAILABLE
  | START_TIME_SET
  | LOOP_TIMER_FIRED
  | END_TIMER_FIRED
  | PAUSE_OVERRIDE
  | RESUME_OVERRIDE
  | PLAY_STATE_RUNNING
  | PLAY_STATE_PAUSED
  | END_ANIMATION
deriving DecidableEq, Repr

/-- The mutable scalar state of an AnimationBase (src: AnimationBase's
data members relevant to the state machine; timers are external effects
and carry no state read back by the machine). -/
structure ABState where
  animState : AnimState
  iteration : ℤ
  animating : Bool
  waitedForResponse : Bool
  startTime : ℚ
  pauseTime : ℚ
  waitingForEndEvent : Bool
deriving DecidableEq, Repr

/-- The state an AnimationBase constructor produces. -/
def initABState : ABState :=
  { animState := .NEW, iteration := 0, animating := false
    waitedForResponse := false, startTime := 0, pauseTime := -1
    waitingForEndEvent := false }

/-- Environment of one updateStateMachine call: the current wall-clock
time, the values the virtual hooks return in this call
(`overridden()`, `startAnimation(...)`), and whether the onAnimationStart
/ Iteration / End hooks dispatch an event (which sets
m_waitingForEndEvent).  In these sources, no subclass overrides
startAnimation, so the real `startOk` is always false; it is kept as a
parameter to model the virtual call. -/
structure Env where
  now : ℚ
  overridden : Bool
  startOk : Bool
  dispatchStart : Bool
  dispatchIteration : Bool
  dispatchEnd : Bool
deriving DecidableEq, Repr

def ABState.preactive (st : ABState) : Prop :=
  st.animState = .NEW ∨ st.animState = .START_WAIT_TIMER ∨
  st.animState = .START_WAIT_STYLE_AVAILABLE ∨ st.animState = .START_WAIT_RESPONSE

instance (st : ABState) : Decidable st.preactive := by
  unfold ABState.preactive; infer_instance

def ABState.postactive (st : ABState) : Prop := st.animState = .DONE

instance (st : ABState) : Decidable st.postactive := by
  unfold ABState.postactive; infer_instance

def ABState.isnew (st : ABState) : Prop := st.animState = .NEW

instance (st : ABState) : Decidable st.isnew := by
  unfold ABState.isnew; infer_instance

def ABState.running (st : ABState) : Prop := ¬st.isnew ∧ ¬st.postactive

instance (st : ABState) : Decidable st.running := by
  unfold ABState.running; infer_instance

def ABState.isPaused (st : ABState) : Prop := 0 ≤ st.pauseTime

instance (st : ABState) : Decidable st.isPaused := by
  unfold ABState.isPaused; infer_instance

def ABState.waitingToStart (st : ABState) : Prop :=
  st.animState = .NEW ∨ st.animState = .START_WAIT_TIMER

instance (st : ABState) : Decidable st.waitingToStart := by
  unfold ABState.waitingToStart; infer_instance

def ABState.waitingForStartTime (st : ABState) : Prop :=
  st.animState = .START_WAIT_RESPONSE

instance (st : ABState) : Decidable st.waitingForStartTime := by
  unfold ABState.waitingForStartTime; infer_instance

def ABState.waitingForStyleAvailable (st : ABState) : Prop :=
  st.animState = .START_WAIT_STYLE_AVAILABLE

instance (st : ABState) : Decidable st.waitingForStyleAvailable := by
  unfold ABState.waitingForStyleAvailable; infer_instance

/-- The three paused shadow states of the state enum. -/
def AnimState.isPausedState : AnimState → Prop
  | .PAUSED_WAIT_TIMER => True
  | .PAUSED_WAIT_RESPONSE => True
  | .PAUSED_RUN => True
  | _ => False

instance (s : AnimState) : Decidable s.isPausedState := by
  cases s <;> (unfold AnimState.isPausedState; infer_instance)

/-- src: AnimationBase::primeEventTimers.  Computes the time to the next
iteration boundary and moves to LOOPING or ENDING accordingly (the
armed timer itself is an external effect). -/
def primeEventTimers {σ : Type} (a : Anim σ) (st : ABState) (now : ℚ) : ABState :=
  let elapsedDuration := now - st.startTime
  let totalDuration : ℚ := if a.iterationCount > 0 then a.duration * a.iterationCount else -1
  let nextIterationTime :=
    if totalDuration < 0 ∨ elapsedDuration < totalDuration then
      elapsedDuration + (a.duration - qfmod elapsedDuration a.duration)
    else totalDuration
  { st with animState :=
      if totalDuration < 0 ∨ nextIterationTime < totalDuration then .LOOPING else .ENDING }

/-- src: the STATE_START_WAIT_RESPONSE + STATE_INPUT_START_TIME_SET body
of AnimationBase::updateStateMachine: keep an already-set start time,
otherwise take the parameter; then prime the loop/end timers. -/
def handleStartTimeSet {σ : Type} (a : Anim σ) (st : ABState) (param now : ℚ) : ABState :=
  let st := if st.startTime ≤ 0 then { st with startTime := param } else st
  primeEventTimers a st now

/-- src: the STATE_NEW + STATE_INPUT_START_ANIMATION body of
AnimationBase::updateStateMachine (arm the delay timer, enter
START_WAIT_TIMER). -/
def startFromNew (st : ABState) : ABState :=
  { st with waitedForResponse := false, animState := .START_WAIT_TIMER }

/-- src: AnimationBase::updateStateMachine.  A pure transcription: the
inputs handled before the state switch come first, then the switch on
the current state.  Nested recursive updateStateMachine calls in the
source are flattened through `handleStartTimeSet` / `startFromNew`,
which transcribe exactly the bodies those nested calls execute. -/
def updateStateMachine {σ : Type} (a : Anim σ) (st : ABState)
    (input : AnimInput) (param : ℚ) (env : Env) : ABState :=
  match input with
  | .MAKE_NEW =>
      { st with animState := .NEW, startTime := 0, pauseTime := -1,
                waitedForResponse := false }
  | .RESTART_ANIMATION =>
      -- after pauseTime is reset to -1 the `if (!paused())` guard always
      -- passes, so the nested START_ANIMATION dispatch always runs
      startFromNew { st with animState := .NEW, startTime := 0, pauseTime := -1 }
  | .END_ANIMATION =>
      { st with animState := .DONE }
  | .PAUSE_OVERRIDE =>
      if st.animState = .START_WAIT_RESPONSE then
        handleStartTimeSet a st env.now env.now
      else st
  | .RESUME_OVERRIDE => st
  | _ =>
    match st.animState with
    | .NEW =>
        if input = .START_ANIMATION ∨ input = .PLAY_STATE_RUNNING then
          startFromNew st
        else st
    | .START_WAIT_TIMER =>
        if input = .START_TIMER_FIRED then
          { st with animState := .START_WAIT_STYLE_AVAILABLE }
        else
          { st with pauseTime := env.now, animState := .PAUSED_WAIT_TIMER }
    | .START_WAIT_STYLE_AVAILABLE =>
        if input = .STYLE_AVAILABLE then
          let st := { st with animState := .START_WAIT_RESPONSE,
                              waitingForEndEvent := st.waitingForEndEvent || env.dispatchStart }
          if env.overridden ∨ ¬env.startOk then
            handleStartTimeSet a st env.now env.now
          else
            { st with waitedForResponse := true }
        else
          { st with pauseTime := 0, animState := .START_WAIT_RESPONSE }
    | .START_WAIT_RESPONSE =>
        if input = .START_TIME_SET then
          handleStartTimeSet a st param env.now
        else
          { st with pauseTime := 0, animState := .PAUSED_WAIT_RESPONSE }
    | .LOOPING =>
        if input = .LOOP_TIMER_FIRED then
          primeEventTimers a
            { st with waitingForEndEvent := st.waitingForEndEvent || env.dispatchIteration }
            env.now
        else
          { st with pauseTime := env.now, animState := .PAUSED_RUN }
    | .ENDING =>
        if input = .END_TIMER_FIRED then
          { st with animState := .DONE,
                    waitingForEndEvent := st.waitingForEndEvent || env.dispatchEnd }
        else
          { st with pauseTime := env.now, animState := .PAUSED_RUN }
    | .PAUSED_WAIT_TIMER =>
        startFromNew { st with startTime := st.startTime + env.now - st.pauseTime,
                               pauseTime := -1, animState := .NEW }
    | .PAUSED_WAIT_RESPONSE =>
        let st := { st with startTime := 0, pauseTime := -1,
                            animState := .START_WAIT_RESPONSE }
        if env.overridden ∨ ¬env.startOk then
          handleStartTimeSet a st env.now env.now
        else
          { st with waitedForResponse := true }
    | .PAUSED_RUN =>
        let st := { st with startTime := st.startTime + env.now - st.pauseTime,
                            pauseTime := -1, animState := .START_WAIT_RESPONSE }
        if env.overridden ∨ ¬env.startOk then
          handleStartTimeSet a st env.now env.now
        else
          { st with waitedForResponse := true }
    | .DONE => st

/-- src: AnimationBase::progress.  `bez` stands for
solveCubicBezierFunction, whose UnitBezier solver lives outside these
sources; it receives the four control points, the input fraction and
the duration. -/
def progress {σ : Type} (a : Anim σ) (st : ABState) (now : ℚ)
    (scale offset : ℚ) (bez : ℚ → ℚ → ℚ → ℚ → ℚ → ℚ → ℚ) : ℚ :=
  if st.preactive then 0
  else
    let elapsedTime := if st.running then now - st.startTime else st.pauseTime - st.startTime
    if st.running ∧ elapsedTime < 0 then 0
    else
      let dur := if a.iterationCount > 0 then a.duration * a.iterationCount else a.duration
      if st.postactive ∨ a.duration = 0 ∨ (a.iterationCount > 0 ∧ elapsedTime ≥ dur) then 1
      else
        let fractionalTime := elapsedTime / a.duration
        let integralTime := qtrunc fractionalTime
        let fractionalTime := fractionalTime - (integralTime : ℚ)
        let fractionalTime :=
          if a.direction ∧ integralTime % 2 = 1 then 1 - fractionalTime else fractionalTime
        let fractionalTime :=
          if scale ≠ 1 ∨ offset ≠ 0 then (fractionalTime - offset) * scale else fractionalTime
        match a.timing with
        | .linear => fractionalTime
        | .bezier x1 y1 x2 y2 => bez x1 y1 x2 y2 fractionalTime a.duration

/-! ## The property blend functions (src: the blendFunc overload set) -/


/-- src: `static inline int blendFunc(int, int, double)` — linear
interpolation followed by the C truncating cast back to int. -/
def blendFuncInt (f t : ℤ) (p : ℚ) : ℤ :=
  qtrunc ((f : ℚ) + ((t : ℚ) - (f : ℚ)) * p)

/-- src: `static inline double blendFunc(double, double, double)`. -/
def blendFuncQ (f t : ℚ) (p : ℚ) : ℚ :=
  f + (t - f) * p

/-- src: `static inline float blendFunc(float, float, double)`; the
narrowPrecisionToFloat rounding is the identity in the exact-rational
model. -/
def blendFuncFloat (f t : ℚ) (p : ℚ) : ℚ :=
  f + (t - f) * p

/-- An RGBA color as its four integer channels (src: Color, consumed
channel-wise by blendFunc). -/
structure RColor where
  red : ℤ
  green : ℤ
  blue : ℤ
  alpha : ℤ
deriving DecidableEq, Repr

/-- src: `static inline Color blendFunc(const Color&, const Color&, double)`. -/
def blendFuncColor (f t : RColor) (p : ℚ) : RColor :=
  { red := blendFuncInt f.red t.red p
    green := blendFuncInt f.green t.green p
    blue := blendFuncInt f.blue t.blue p
    alpha := blendFuncInt f.alpha t.alpha p }

/-- Modelled from the spec: the Length value type and Length::blend live
in platform/Length.h, outside these sources; §4.1 prescribes linear
numeric component-wise blending for lengths, so a Length is its numeric
value and blends linearly. -/
structure RLength where
  value : ℚ
deriving DecidableEq, Repr

/-- src: `static inline Length blendFunc(const Length&, const Length&,
double)` forwards to `to.blend(from, progress)`; the blend itself is
modelled from the spec (linear). -/
def blendFuncLength (f t : RLength) (p : ℚ) : RLength :=
  { value := f.value + (t.value - f.value) * p }

/-- src: IntSize — an integer width/height pair. -/
structure RIntSize where
  width : ℤ
  height : ℤ
deriving DecidableEq, Repr

/-- src: `static inline IntSize blendFunc(const IntSize&, const IntSize&, double)`. -/
def blendFuncIntSize (f t : RIntSize) (p : ℚ) : RIntSize :=
  { width := blendFuncInt f.width t.width p
    height := blendFuncInt f.height t.height p }

/-- src: ShadowData — x/y offsets, blur radius and color. -/
structure RShadowData where
  x : ℤ
  y : ℤ
  blur : ℤ
  color : RColor
deriving DecidableEq, Repr

/-- src: `static inline ShadowData* blendFunc(const ShadowData*, const
ShadowData*, double)`; both arguments are non-null there (ASSERT), so the
embedding takes values. -/
def blendFuncShadow (f t : RShadowData) (p : ℚ) : RShadowData :=
  { x := blendFuncInt f.x t.x p
    y := blendFuncInt f.y t.y p
    blur := blendFuncInt f.blur t.blur p
    color := blendFuncColor f.color t.color p }

/-- Modelled from the spec: TransformOperation subclasses live outside
these sources.  §4.1 reduces an operation to its kind plus numeric
content; `v` is that content. -/
structure TransformOp where
  kind : ℕ
  v : ℚ
deriving DecidableEq, Repr

/-- Modelled from the spec: TransformOperation::blend (outside these
sources).  Per §4.1, operations blend pairwise when their kinds match;
an operation blended against a missing partner blends one-sidedly
against identity (identity content taken as 0).  A to-operation whose
kind differs from its partner is kept as is. -/
def blendTransformOp (toOp : TransformOp) (fromOp : Option TransformOp) (p : ℚ) : TransformOp :=
  match fromOp with
  | none => { kind := toOp.kind, v := 0 + (toOp.v - 0) * p }
  | some f =>
      if f.kind = toOp.kind then { kind := toOp.kind, v := f.v + (toOp.v - f.v) * p }
      else toOp

/-- Modelled from the spec: the `blendToIdentity` direction of
TransformOperation::blend — blend the operation toward identity as the
progress grows. -/
def blendTransformOpToIdentity (fromOp : TransformOp) (p : ℚ) : TransformOp :=
  { kind := fromOp.kind, v := fromOp.v + (0 - fromOp.v) * p }

/-- src: `static inline TransformOperations blendFunc(const
TransformOperations&, const TransformOperations&, double)` — walk the
longer of the two lists, blending position-wise; a missing to-entry
blends the from-entry toward identity, a missing from-entry blends the
to-entry up from identity. -/
def blendFuncTransformList : List TransformOp → List TransformOp → ℚ → List TransformOp
  | [], [], _ => []
  | fo :: fs, [], p => blendTransformOpToIdentity fo p :: blendFuncTransformList fs [] p
  | [], t2 :: ts, p => blendTransformOp t2 none p :: blendFuncTransformList [] ts p
  | fo :: fs, t2 :: ts, p => blendTransformOp t2 (some fo) p :: blendFuncTransformList fs ts p

/-- src: EVisibility. -/
inductive EVisibility where
  | VISIBLE
  | HIDDEN
  | COLLAPSE
deriving DecidableEq, Repr

/-- src: `static inline EVisibility blendFunc(EVisibility, EVisibility,
double)` — visibility as the pseudo-numeric domain visible=1 / hidden=0. -/
def blendFuncVisibility (f t : EVisibility) (p : ℚ) : EVisibility :=
  let fromVal : ℚ := if f = .VISIBLE then 1 else 0
  let toVal : ℚ := if t = .VISIBLE then 1 else 0
  if fromVal = toVal then t
  else
    let result := blendFuncQ fromVal toVal p
    if result > 0 then .VISIBLE else (if t ≠ .VISIBLE then t else f)

/-! ## The property-wrapper registry

(src: PropertyWrapperBase and AnimationControllerPrivate's static
registry).  A wrapper is its property id plus its virtual `equals` and
`blend` strategies; styles are an abstract type. -/

/-- src: PropertyWrapperBase — the per-property strategy (property id,
equals, blend).  `blendF dst a b prog` returns the updated destination
style. -/
structure PropWrapper (σ : Type) where
  prop : ℤ
  equalsF : σ → σ → Bool
  blendF : σ → σ → σ → ℚ → σ

/-- The static registry data: the first CSS property id, the number of
CSS property slots, and the registered wrappers in registration order
(src: gPropertyWrappers plus the firstCSSProperty / numCSSProperties
constants of the generated CSSPropertyNames.h, which is outside these
sources and therefore left parametric). -/
structure Registry (σ : Type) where
  first : ℤ
  num : ℕ
  wrappers : List (PropWrapper σ)

/-- Modelled from the spec: CSSPropertyInvalid, the unused-slot sentinel
of the generated CSSPropertyNames.h (outside these sources).  The lookup
guard `i >= 0` in the source treats a non-negative slot as a registered
wrapper index, so the sentinel is modelled as the negative value -1,
matching §4.1's registry-as-partial-map reading. -/
def CSSPropertyInvalid : ℤ := -1

/-- Modelled from the spec: cAnimateAll, the "all properties" sentinel
from RenderStyle.h (outside these sources); any value distinct from
every concrete property id serves. -/
def cAnimateAll : ℤ := -2

/-- src: the gPropertyWrapperMap construction in
AnimationControllerPrivate::ensurePropertyMap — every slot starts at the
sentinel, then wrapper `i` is written at slot `wrappers[i].property() -
firstCSSProperty`.  (The C++ write is unchecked; `List.set` ignores an
out-of-range index, which coincides for well-formed registries, see
`Registry.WF`.) -/
def buildWrapperMap {σ : Type} (first : ℤ) :
    List (PropWrapper σ) → ℕ → List ℤ → List ℤ
  | [], _, m => m
  | w :: ws, i, m => buildWrapperMap first ws (i + 1) (m.set (w.prop - first).toNat (i : ℤ))

def Registry.wrapperMap {σ : Type} (R : Registry σ) : List ℤ :=
  buildWrapperMap R.first R.wrappers 0 (List.replicate R.num CSSPropertyInvalid)

/-- The registry well-formedness the source ASSERTs while building the
map: every registered property id falls inside the CSS property index
range. -/
def Registry.WF {σ : Type} (R : Registry σ) : Prop :=
  ∀ w ∈ R.wrappers, 0 ≤ w.prop - R.first ∧ w.prop - R.first < (R.num : ℤ)

instance {σ : Type} (R : Registry σ) : Decidable R.WF := by
  unfold Registry.WF; infer_instance

/-- src: AnimationControllerPrivate::getNumProperties. -/
def Registry.getNumProperties {σ : Type} (R : Registry σ) : ℕ := R.wrappers.length

/-- src: AnimationControllerPrivate::getPropertyAtIndex. -/
def Registry.getPropertyAtIndex {σ : Type} (R : Registry σ) (i : ℤ) : ℤ :=
  if i < 0 ∨ (R.wrappers.length : ℤ) ≤ i then CSSPropertyInvalid
  else
    match R.wrappers[i.toNat]? with
    | some w => w.prop
    | none => CSSPropertyInvalid

/-- src: AnimationControllerPrivate::propertiesEqual. -/
def propertiesEqual {σ : Type} (R : Registry σ) (prop : ℤ) (a b : σ) : Bool :=
  if prop = cAnimateAll then
    R.wrappers.all fun w => w.equalsF a b
  else
    let propIndex := prop - R.first
    if 0 ≤ propIndex ∧ propIndex < (R.num : ℤ) then
      match R.wrapperMap[propIndex.toNat]? with
      | some i =>
          if 0 ≤ i then
            match R.wrappers[i.toNat]? with
            | some w => w.equalsF a b
            | none => true    -- out-of-range wrapper read; never happens, see C9
          else true
      | none => true          -- out-of-range map read; never happens, see C9
    else true

/-- src: AnimationControllerPrivate::blendProperties — returns whether a
software timer is needed, together with the (possibly updated)
destination style. -/
def blendProperties {σ : Type} (R : Registry σ) (prop : ℤ)
    (dst a b : σ) (prog : ℚ) : Bool × σ :=
  if prop = cAnimateAll then
    -- the source ASSERT(0)s here but still executes the loop
    R.wrappers.foldl
      (fun acc w =>
        if w.equalsF a b then acc else (true, w.blendF acc.2 a b prog))
      (false, dst)
  else
    let propIndex := prop - R.first
    if 0 ≤ propIndex ∧ propIndex < (R.num : ℤ) then
      match R.wrapperMap[propIndex.toNat]? with
      | some i =>
          if 0 ≤ i then
            match R.wrappers[i.toNat]? with
            | some w => (true, w.blendF dst a b prog)
            | none => (false, dst)   -- out-of-range wrapper read; never happens, see C9
          else (false, dst)
      | none => (false, dst)         -- out-of-range map read; never happens, see C9
    else (false, dst)

/-! ## ImplicitAnimation, KeyframeAnimation and CompositeAnimation -/


/-- src: ImplicitAnimation — the per-property transition object. -/
structure ImplicitAnim (σ : Type) where
  base : ABState
  anim : Anim σ
  transitionProperty : ℤ
  animatingProperty : ℤ
  overridden : Bool
  fromStyle : Option σ
  toStyle : Option σ

/-- src: the ImplicitAnimation constructor. -/
def newImplicitAnim {σ : Type} (a : Anim σ) (prop : ℤ) : ImplicitAnim σ :=
  { base := initABState, anim := a, transitionProperty := a.property
    animatingProperty := prop, overridden := false
    fromStyle := none, toStyle := none }

/-- src: KeyframeAnimation — the named multi-property animation object
(keyframes and affected properties are read from its Anim). -/
structure KFAnim (σ : Type) where
  base : ABState
  anim : Anim σ
  name : ℕ
  index : ℤ

/-- src: the KeyframeAnimation constructor. -/
def newKFAnim {σ : Type} (a : Anim σ) (index : ℤ) : KFAnim σ :=
  { base := initABState, anim := a, name := a.name, index := index }

/-- The per-property transition map of a CompositeAnimation, as an
association list in hash-iteration order (src: CSSPropertyTransitionsMap). -/
abbrev TransMap (σ : Type) := List (ℤ × ImplicitAnim σ)

/-- The by-name keyframe-animation map of a CompositeAnimation
(src: AnimationNameMap). -/
abbrev KfMap (σ : Type) := List (ℕ × KFAnim σ)

def lookupT {σ : Type} (m : TransMap σ) (p : ℤ) : Option (ImplicitAnim σ) :=
  (m.find? (fun e => e.1 = p)).map (·.2)

def removeT {σ : Type} (m : TransMap σ) (p : ℤ) : TransMap σ :=
  m.filter (fun e => ¬(e.1 = p))

def setT {σ : Type} (m : TransMap σ) (p : ℤ) (v : ImplicitAnim σ) : TransMap σ :=
  if (lookupT m p).isSome then m.map (fun e => if e.1 = p then (p, v) else e)
  else m ++ [(p, v)]

def lookupK {σ : Type} (m : KfMap σ) (n : ℕ) : Option (KFAnim σ) :=
  (m.find? (fun e => e.1 = n)).map (·.2)

def setK {σ : Type} (m : KfMap σ) (n : ℕ) (v : KFAnim σ) : KfMap σ :=
  if (lookupK m n).isSome then m.map (fun e => if e.1 = n then (n, v) else e)
  else m ++ [(n, v)]

/-- src: ImplicitAnimation::isTargetPropertyEqual — compares the locked
m_toStyle against the proposed target.  A null m_toStyle would be
dereferenced in the source (undefined); in the driver flow it is always
set before this is reached, and the embedding answers `true` there. -/
def isTargetPropertyEqual {σ : Type} (R : Registry σ) (ia : ImplicitAnim σ)
    (prop : ℤ) (tgt : σ) : Bool :=
  match ia.toStyle with
  | some s => propertiesEqual R prop s tgt
  | none => true

/-- One property's step of CompositeAnimation::updateTransitions: replace
an existing ImplicitAnimation whose locked target changed, or create one
when none exists and the property differs between the two styles.  Also
returns the properties for which a new ImplicitAnimation was constructed
in this step. -/
def processTransProp {σ : Type} (R : Registry σ) (a : Anim σ) (prop : ℤ)
    (cur tgt : σ) (m : TransMap σ) : TransMap σ × List ℤ :=
  match lookupT m prop with
  | some implAnim =>
      if ¬isTargetPropertyEqual R implAnim prop tgt then
        (setT (removeT m prop) prop (newImplicitAnim a prop), [prop])
      else (m, [])
  | none =>
      if ¬propertiesEqual R prop cur tgt then
        (setT m prop (newImplicitAnim a prop), [prop])
      else (m, [])

/-- One declaration's step of CompositeAnimation::updateTransitions:
skip empty declarations, expand cAnimateAll through the registry,
otherwise handle the single declared property. -/
def processTransDecl {σ : Type} (R : Registry σ) (cur tgt : σ)
    (acc : TransMap σ × List ℤ) (a : Anim σ) : TransMap σ × List ℤ :=
  if a.duration = 0 ∧ a.delay ≤ 0 then acc
  else if a.property = cAnimateAll then
    (List.range R.getNumProperties).foldl
      (fun acc2 i =>
        let prop := R.getPropertyAtIndex (i : ℤ)
        let r := processTransProp R a prop cur tgt acc2.1
        (r.1, acc2.2 ++ r.2))
      acc
  else
    let r := processTransProp R a a.property cur tgt acc.1
    (r.1, acc.2 ++ r.2)

/-- src: CompositeAnimation::updateTransitions.  `decls` is the target
style's transition list (an absent or empty list means no work, like the
source's null check), `cur?` the renderer's current style.  Returns the
updated map and the trace of properties for which an ImplicitAnimation
was constructed. -/
def updateTransitions {σ : Type} (R : Registry σ) (decls : List (Anim σ))
    (cur? : Option σ) (tgt : σ) (m : TransMap σ) : TransMap σ × List ℤ :=
  match cur? with
  | none => (m, [])
  | some cur => decls.foldl (processTransDecl R cur tgt) (m, [])

/-- src: AnimationBase::isAnimatingProperty, the state part (the
affectsProperty part differs per subclass). -/
def ABState.isAnimatingNow (st : ABState) (isRunningNow : Bool) : Bool :=
  if isRunningNow then (¬st.waitingToStart ∧ ¬st.postactive : Bool)
  else (¬st.postactive : Bool)

/-- src: CompositeAnimation::isAnimatingProperty — any keyframe
animation affecting the property in the required state, else any
transition doing so. -/
def compositeIsAnimatingProperty {σ : Type} (kfs : KfMap σ) (m : TransMap σ)
    (property : ℤ) (isRunningNow : Bool) : Bool :=
  kfs.any (fun e => e.2.base.isAnimatingNow isRunningNow
            && e.2.anim.keyframeProps.contains property) ||
  m.any (fun e => e.2.base.isAnimatingNow isRunningNow
            && (e.2.animatingProperty = property))

/-! ## The animate methods -/


/-- The `RenderStyle*& animatedStyle` in/out parameter: `none` while no
blended style was allocated; otherwise the flag records whether the
pointer is an alias of the target style (the KeyframeAnimation
done-cleanup path assigns `animatedStyle = targetStyle` directly) or a
fresh copy (`new RenderStyle(*targetStyle)`).  The distinction carries
the source's pointer identity `blendedStyle != newStyle`. -/
abbrev OutStyle (σ : Type) := Option (Bool × σ)

/-- src: ImplicitAnimation::reset — swap in the new endpoint styles and
force-restart the state machine when both are present. -/
def implReset {σ : Type} (ia : ImplicitAnim σ) (f t : Option σ) (env : Env) : ImplicitAnim σ :=
  let ia := { ia with fromStyle := f, toStyle := t }
  match f, t with
  | some _, some _ =>
      { ia with base := updateStateMachine ia.anim ia.base .RESTART_ANIMATION (-1) env }
  | _, _ => ia

/-- src: ImplicitAnimation::animate — skip when paused or already done;
reset when new; lazily allocate the output style; blend exactly the
animating property at the current progress. -/
def implAnimate {σ : Type} (R : Registry σ) (ia : ImplicitAnim σ) (cur tgt : σ)
    (out : OutStyle σ) (env : Env) (bez : ℚ → ℚ → ℚ → ℚ → ℚ → ℚ → ℚ) :
    ImplicitAnim σ × OutStyle σ :=
  if ia.base.isPaused then (ia, out)
  else if ia.base.postactive then (ia, out)
  else
    let ia := if ia.base.isnew then implReset ia (some cur) (some tgt) env else ia
    let o := out.getD (false, tgt)
    let prog := progress ia.anim ia.base env.now 1 0 bez
    match ia.fromStyle, ia.toStyle with
    | some f, some t =>
        let r := blendProperties R ia.animatingProperty o.2 f t prog
        ({ ia with base := { ia.base with animating := ia.base.animating || r.1 } },
         some (o.1, r.2))
    | _, _ => (ia, some o)  -- null endpoint styles are undefined behaviour in the source

/-- src: the bracketing-keyframe scan in KeyframeAnimation::animate —
walk the keys in order; the first key strictly above `t` closes the pair
begun by its predecessor, yielding (fromStyle, toStyle, scale, offset). -/
def scanKeyframes {σ : Type} (t : ℚ) :
    List (KeyframeValue σ) → Option σ → ℚ → (Option σ × Option σ × ℚ × ℚ)
  | [], fromS, offset => (fromS, none, 1, offset)
  | kv :: rest, fromS, offset =>
      if t < kv.key then
        match fromS with
        | none => (none, none, 1, offset)
        | some f => (some f, some kv.style, 1 / (kv.key - offset), offset)
      else scanKeyframes t rest (some kv.style) kv.key

/-- The bracketing pair KeyframeAnimation::animate finds for fractional
time `t` (a missing keyframe list yields no pair, like the source's
null check). -/
def findKeyframePair {σ : Type} (kl : Option (List (KeyframeValue σ))) (t : ℚ) :
    Option σ × Option σ × ℚ × ℚ :=
  match kl with
  | some kfs => scanKeyframes t kfs none 0
  | none => (none, none, 1, 0)

/-- src: the elapsed-time computation at the top of
KeyframeAnimation::animate (zero before a start time exists, clamped at
zero). -/
def kfElapsed (st : ABState) (now : ℚ) : ℚ :=
  let e := if st.startTime > 0 then (if ¬st.isPaused then now else st.pauseTime) - st.startTime
           else 0
  if e < 0 then 0 else e

/-- src: the fractional-time computation in KeyframeAnimation::animate
(elapsed over duration mod 1, flipped on odd alternate iterations;
1.0 for a zero duration). -/
def kfFractionalTime {σ : Type} (a : Anim σ) (st : ABState) (now : ℚ) : ℚ :=
  let t := if a.duration ≠ 0 then kfElapsed st now / a.duration else 1
  let i := qtrunc t
  let t := t - (i : ℚ)
  if a.direction ∧ i % 2 = 1 then 1 - t else t

/-- src: KeyframeAnimation::animate. -/
def kfAnimate {σ : Type} (R : Registry σ) (ka : KFAnim σ) (tgt : σ)
    (out : OutStyle σ) (env : Env) (bez : ℚ → ℚ → ℚ → ℚ → ℚ → ℚ → ℚ) :
    KFAnim σ × OutStyle σ :=
  let ka :=
    if ka.base.isnew ∧ ka.anim.playState then
      { ka with base := updateStateMachine ka.anim ka.base .START_ANIMATION (-1) env }
    else ka
  if ka.base.postactive then
    -- cleaning up a finished animation: hand back the target style itself
    (ka, some (out.getD (true, tgt)))
  else if ka.base.waitingToStart ∧ ka.anim.delay > 0 then (ka, out)
  else
    let t := kfFractionalTime ka.anim ka.base env.now
    match findKeyframePair ka.anim.keyframeList t with
    | (some fromS, some toS, scale, offset) =>
        let o := out.getD (false, tgt)
        let prog := progress ka.anim ka.base env.now scale offset bez
        let r := ka.anim.keyframeProps.foldl
          (fun acc p =>
            let b := blendProperties R p acc.1 fromS toS prog
            (b.2, acc.2 || b.1))
          (o.2, false)
        ({ ka with base := { ka.base with animating := ka.base.animating || r.2 } },
         some (o.1, r.1))
    | _ =>
        -- no valid bracketing pair: force an end, write nothing
        ({ ka with base := updateStateMachine ka.anim ka.base .END_ANIMATION (-1) env },
         out)

/-! ## CompositeAnimation -/


/-- src: AnimationBase::updatePlayState. -/
def updatePlayState {σ : Type} (a : Anim σ) (st : ABState) (run : Bool) (env : Env) : ABState :=
  if (decide st.isPaused = run) ∨ st.isnew then
    updateStateMachine a st (if run then .PLAY_STATE_RUNNING else .PLAY_STATE_PAUSED) (-1) env
  else st

/-- Modelled from the spec: Animation::animationsMatch lives in the
style classes outside these sources; per §4.5 two declarations match
when they carry the same declaration identity. -/
def animationsMatch {σ : Type} (x y : Anim σ) : Bool := x.declId = y.declId

/-- Modelled from the spec: RenderStyle::hasAnimations (outside these
sources) — the style carries a non-empty animation list. -/
def hasAnimationList {σ : Type} (l : Option (List (Anim σ))) : Bool :=
  match l with
  | some xs => ¬xs.isEmpty
  | none => false

/-- src: CompositeAnimation::updateKeyframeAnimations.  `curAnims` /
`tgtAnims` are the animation lists of the current and target styles. -/
def updateKeyframeAnimations {σ : Type} [DecidableEq σ] (kmap : KfMap σ)
    (curAnims tgtAnims : Option (List (Anim σ))) (env : Env) : KfMap σ :=
  if kmap.isEmpty ∧ ¬hasAnimationList tgtAnims then kmap
  else if (match curAnims, tgtAnims with
           | some cl, some tl =>
               hasAnimationList curAnims && hasAnimationList tgtAnims && decide (cl = tl)
           | _, _ => false) then kmap
  else
    let scan := (tgtAnims.getD []).foldl
      (fun (acc : KfMap σ × ℕ × Bool) a =>
        let (m, n, changed) := acc
        if ¬a.isValidAnimation then (m, n + 1, true)
        else
          match lookupK m a.name with
          | none => (m, n + 1, true)
          | some kf =>
              if ¬animationsMatch kf.anim a then (m, n + 1, true)
              else
                let kf := { kf with base := updatePlayState kf.anim kf.base a.playState env,
                                    anim := a }
                (setK m a.name kf, n + 1, changed))
      (kmap, 0, false)
    let animsChanged := scan.2.2 ∨ kmap.length ≠ scan.2.1
    if ¬animsChanged then scan.1
    else
      -- resetAnimations, then rebuild from the target list
      ((tgtAnims.getD []).foldl
        (fun (acc : KfMap σ × ℤ) a =>
          if ¬a.isValidAnimation then acc
          else if (a.duration ≠ 0 ∨ a.delay ≠ 0) ∧ a.iterationCount ≠ 0 ∧
                  (match a.keyframeList with | some l => ¬l.isEmpty | none => false) = true then
            (setK acc.1 a.name (newKFAnim a acc.2), acc.2 + 1)
          else acc)
        (([] : KfMap σ), 0)).1

/-- The per-target animation collection (src: CompositeAnimation's data
members). -/
structure CompositeState (σ : Type) where
  transitions : TransMap σ
  keyframes : KfMap σ
  suspended : Bool
  numStyleAvailableWaiters : ℕ

/-- One advancement event of a style-recomputation pass: a transition's
animate call or a keyframe animation's animate call. -/
inductive Ev where
  | trans (prop : ℤ) : Ev
  | kf (name : ℕ) : Ev
deriving DecidableEq, Repr

def Ev.isTrans : Ev → Bool
  | .trans _ => true
  | .kf _ => false

def Ev.isKf : Ev → Bool
  | .trans _ => false
  | .kf _ => true

/-- src: CompositeAnimation::cleanupFinishedAnimations — drop every child
that is past its end and no longer waiting for its end event (no-op when
suspended). -/
def cleanupFinishedAnimations {σ : Type} (cs : CompositeState σ) : CompositeState σ :=
  if cs.suspended then cs
  else
    { cs with
      transitions := cs.transitions.filter
        (fun e => ¬(e.2.base.postactive ∧ ¬e.2.base.waitingForEndEvent))
      keyframes := cs.keyframes.filter
        (fun e => ¬(e.2.base.postactive ∧ ¬e.2.base.waitingForEndEvent)) }

/-- The transition-advancement loop of CompositeAnimation::animate
(the first for-loop): advance each ImplicitAnimation in map order,
threading the lazily allocated output style and recording one trace
event per animate call. -/
def transitionsLoop {σ : Type} (R : Registry σ) (cur tgt : σ) (env : Env)
    (bez : ℚ → ℚ → ℚ → ℚ → ℚ → ℚ → ℚ)
    (acc : TransMap σ × OutStyle σ × List Ev) (m : TransMap σ) :
    TransMap σ × OutStyle σ × List Ev :=
  m.foldl
    (fun (acc : TransMap σ × OutStyle σ × List Ev) (e : ℤ × ImplicitAnim σ) =>
      let r := implAnimate R e.2 cur tgt acc.2.1 env bez
      (acc.1 ++ [(e.1, r.1)], r.2, acc.2.2 ++ [Ev.trans e.1]))
    acc

/-- The keyframe-advancement loop of CompositeAnimation::animate (the
second for-loop): walk the target style's animation list in declaration
order and advance each matching KeyframeAnimation. -/
def kfLoop {σ : Type} (R : Registry σ) (tgt : σ) (env : Env)
    (bez : ℚ → ℚ → ℚ → ℚ → ℚ → ℚ → ℚ)
    (acc : KfMap σ × OutStyle σ × List Ev) (anims : List (Anim σ)) :
    KfMap σ × OutStyle σ × List Ev :=
  anims.foldl
    (fun (acc : KfMap σ × OutStyle σ × List Ev) a =>
      if a.isValidAnimation then
        match lookupK acc.1 a.name with
        | some kf =>
            let r := kfAnimate R kf tgt acc.2.1 env bez
            (setK acc.1 a.name r.1, r.2, acc.2.2 ++ [Ev.kf a.name])
        | none => acc
      else acc)
    acc

/-- src: CompositeAnimation::animate.  Returns the updated composite
state, the blended output style (`none` when the target style is handed
back untouched), and the trace of child animate calls in execution
order. -/
def compositeAnimate {σ : Type} [DecidableEq σ] (R : Registry σ)
    (cs : CompositeState σ) (cur? : Option σ) (tgt : σ)
    (tgtTransitions : List (Anim σ)) (curAnims tgtAnims : Option (List (Anim σ)))
    (env : Env) (bez : ℚ → ℚ → ℚ → ℚ → ℚ → ℚ → ℚ) :
    CompositeState σ × OutStyle σ × List Ev :=
  let m1 : TransMap σ := (updateTransitions R tgtTransitions cur? tgt cs.transitions).1
  let step1 :=
    match cur? with
    | none => (m1, (none : OutStyle σ), ([] : List Ev))
    | some cur => transitionsLoop R cur tgt env bez (([] : TransMap σ), none, []) m1
  let k1 := updateKeyframeAnimations cs.keyframes curAnims tgtAnims env
  let step2 :=
    if hasAnimationList tgtAnims then
      kfLoop R tgt env bez (k1, step1.2.1, []) (tgtAnims.getD [])
    else (k1, step1.2.1, [])
  let cs2 := cleanupFinishedAnimations
    { cs with transitions := step1.1, keyframes := step2.1 }
  (cs2, step2.2.1, step1.2.2 ++ step2.2.2)

/-- src: CompositeAnimation::styleAvailable — nothing to do without
waiters; otherwise feed STYLE_AVAILABLE to the waiting keyframe
animations in declaration order (std::stable_sort by index over the
hash-order list), then to the waiting transitions.  Also returns the
(name, index) pairs of the keyframe animations released, in processing
order. -/
def compositeStyleAvailable {σ : Type} (cs : CompositeState σ) (env : Env) :
    CompositeState σ × List (ℕ × ℤ) :=
  if cs.numStyleAvailableWaiters = 0 then (cs, [])
  else
    let vals := cs.keyframes.map (·.2)
    let sorted := vals.mergeSort (fun x y => decide (x.index ≤ y.index))
    let rel := sorted.foldl
      (fun (acc : KfMap σ × List (ℕ × ℤ)) kf =>
        if kf.base.waitingForStyleAvailable then
          (setK acc.1 kf.name
             { kf with base := updateStateMachine kf.anim kf.base .STYLE_AVAILABLE (-1) env },
           acc.2 ++ [(kf.name, kf.index)])
        else acc)
      (cs.keyframes, [])
    let trans2 := cs.transitions.map
      (fun e =>
        if e.2.base.waitingForStyleAvailable then
          (e.1, { e.2 with base := updateStateMachine e.2.anim e.2.base .STYLE_AVAILABLE (-1)
                                     { env with overridden := e.2.overridden } })
        else e)
    ({ cs with keyframes := rel.1, transitions := trans2 }, rel.2)

/-! ## AnimationController::updateAnimations -/


/-- The RenderStyle accessors AnimationController::updateAnimations
consults (RenderStyle itself lives outside these sources). -/
structure StyleOps (σ : Type) where
  animations : σ → Option (List (Anim σ))
  transitions : σ → Option (List (Anim σ))
  hasAutoZIndex : σ → Bool
  opacity : σ → ℚ
  hasTransform : σ → Bool
  setZIndex : σ → ℤ → σ

/-- src: AnimationController::updateAnimations.  `docMissingOrInCache`
stands for `!renderer->document() || renderer->document()->inPageCache()`;
`oldStyle` is the renderer's current style.  Returns the style handed
back to the caller together with the updated composite state; the Bool
records whether the returned style is `newStyle` itself (the source's
pointer identity). -/
def controllerUpdateAnimations {σ : Type} [DecidableEq σ] (R : Registry σ)
    (ops : StyleOps σ) (docMissingOrInCache : Bool) (oldStyle : Option σ) (newStyle : σ)
    (cs : CompositeState σ) (env : Env) (bez : ℚ → ℚ → ℚ → ℚ → ℚ → ℚ → ℚ) :
    σ × Bool × CompositeState σ :=
  if docMissingOrInCache then (newStyle, true, cs)
  else if (oldStyle.isNone ||
            ((oldStyle.bind ops.animations).isNone && (oldStyle.bind ops.transitions).isNone)) &&
           (ops.animations newStyle).isNone && (ops.transitions newStyle).isNone then
    (newStyle, true, cs)
  else
    let r := compositeAnimate R cs oldStyle newStyle
      ((ops.transitions newStyle).getD []) (oldStyle.bind ops.animations)
      (ops.animations newStyle) env bez
    match r.2.1 with
    | none => (newStyle, true, r.1)
    | some (aliasOfTarget, blended) =>
        if aliasOfTarget then (blended, true, r.1)
        else if ops.hasAutoZIndex blended ∧ (ops.opacity blended < 1 ∨ ops.hasTransform blended) then
          (ops.setZIndex blended 0, false, r.1)
        else (blended, false, r.1)

/-! ## Helper lemmas -/


/-! ## Concrete objects used by witnesses and counterexamples -/


/-- A concrete linear 2s declaration with 2 iterations in alternate
direction, over the trivial style type. -/
def unitAnim : Anim Unit :=
  { duration := 2, delay := 0, iterationCount := 2, direction := true
    timing := .linear, property := 1001, playState := true, name := 0
    declId := 0, isValidAnimation := true, keyframeList := none, keyframeProps := [] }

/-- A LOOPING state with start time 1. -/
def stLooping : ABState :=
  { animState := .LOOPING, iteration := 0, animating := true
    waitedForResponse := false, startTime := 1, pauseTime := -1
    waitingForEndEvent := false }

/-- A bezier-solver stand-in for witnesses that never reach it. -/
def bezId : ℚ → ℚ → ℚ → ℚ → ℚ → ℚ → ℚ := fun _ _ _ _ t _ => t

/-! ## C2: blend round trips -/


/-! ## C9: unknown properties in the registry -/


/-! ## C3 / C4: updateTransitions -/


/-- A one-wrapper registry over integer-valued styles, for concrete
instances. -/

def wZ : PropWrapper ℤ :=
  { prop := 1001, equalsF := fun x y => decide (x = y)
    blendF := fun _ a b p => blendFuncInt a b p }

def RZ : Registry ℤ := { first := 1001, num := 3, wrappers := [wZ] }

/-- A concrete 1s transition declaration on property 1001 over integer
styles. -/
def declZ : Anim ℤ :=
  { duration := 1, delay := 0, iterationCount := 1, direction := false
    timing := .linear, property := 1001, playState := true, name := 0
    declId := 0, isValidAnimation := true, keyframeList := none, keyframeProps := [] }

/-- An existing ImplicitAnimation whose locked target value is 7. -/
def staleTransition : ImplicitAnim ℤ :=
  { newImplicitAnim declZ 1001 with fromStyle := some 0, toStyle := some 7 }

/-- A zero-duration zero-delay transition declaration. -/
def emptyDeclZ : Anim ℤ := { declZ with duration := 0, delay := 0 }

/-! ## C6: degenerate keyframe lists force an end -/


/-- A keyframe animation whose declaration carries an empty keyframe
list. -/
def kaEmptyKeyframes : KFAnim ℤ :=
  newKFAnim
    { duration := 1, delay := 0, iterationCount := 1, direction := false
      timing := .linear, property := 1001, playState := true, name := 5
      declId := 1, isValidAnimation := true, keyframeList := some []
      keyframeProps := [1001] } 0

def env0 : Env :=
  { now := 10, overridden := false, startOk := false
    dispatchStart := false, dispatchIteration := false, dispatchEnd := false }

/-! ## C7: idempotent start-time confirmation -/


/-- A concrete START_WAIT_RESPONSE state with unset start time. -/
def stWaitResp : ABState :=
  { animState := .START_WAIT_RESPONSE, iteration := 0, animating := false
    waitedForResponse := false, startTime := 0, pauseTime := -1
    waitingForEndEvent := false }

/-- The same state with an established start time. -/
def stWaitResp3 : ABState := { stWaitResp with startTime := 3 }

/-! ## C5: pause accounting across the state machine -/


/-- The states updateStateMachine can reach from the constructor's state
by feeding any sequence of inputs, under a non-negative clock. -/
inductive Reachable {σ : Type} (a : Anim σ) : ABState → Prop where
  | init : Reachable a initABState
  | step (st : ABState) (input : AnimInput) (param : ℚ) (env : Env) :
      Reachable a st → 0 ≤ env.now →
      Reachable a (updateStateMachine a st input param env)

/-- NEW, started: the delay timer is armed. -/
def startedSt : ABState := updateStateMachine unitAnim initABState .START_ANIMATION (-1) env0

/-- …then paused while waiting for the start timer. -/
def pausedSt : ABState := updateStateMachine unitAnim startedSt .PLAY_STATE_PAUSED (-1) env0

/-- …then force-ended. -/
def pausedThenEnded : ABState := updateStateMachine unitAnim pausedSt .END_ANIMATION (-1) env0

/-! ## C8: ordering inside one pass, and styleAvailable order -/


/-- A keyframe animation waiting for style-available, with the given
name and declaration index. -/
def kfW (n : ℕ) (idx : ℤ) : KFAnim ℤ :=
  { base := { initABState with animState := .START_WAIT_STYLE_AVAILABLE }
    anim := { declZ with name := n }, name := n, index := idx }

/-- Two waiting keyframe animations stored in reverse declaration
order. -/
def cs8 : CompositeState ℤ :=
  { transitions := [], keyframes := [(7, kfW 7 2), (8, kfW 8 1)]
    suspended := false, numStyleAvailableWaiters := 2 }

/-! ## C10: AnimationController::updateAnimations -/


/-- A transition object on an unregistered property, mid-flight. -/
def ia10 : ImplicitAnim ℤ :=
  { base := stLooping, anim := declZ, transitionProperty := 1002
    animatingProperty := 1002, overridden := false
    fromStyle := some 0, toStyle := some 7 }

def cs10 : CompositeState ℤ :=
  { transitions := [(1002, ia10)], keyframes := [], suspended := false
    numStyleAvailableWaiters := 0 }

/-- Style accessors for the integer style model: no animation lists, an
empty transition list on every style, auto z-index, opacity 0, no
transform; setZIndex returns the z value. -/
def ops10 : StyleOps ℤ :=
  { animations := fun _ => none, transitions := fun _ => some []
    hasAutoZIndex := fun _ => true, opacity := fun _ => 0
    hasTransform := fun _ => false, setZIndex := fun _ z => z }

theorem qtrunc_intCast (n : ℤ) : qtrunc (n : ℚ) = n := by
  unfold qtrunc
  split <;> simp

theorem qtrunc_eq_floor {x : ℚ} (h : 0 ≤ x) : qtrunc x = ⌊x⌋ := by
  unfold qtrunc
  simp [h]

theorem running_of_not_preactive_not_postactive {st : ABState}
    (h1 : ¬st.preactive) (h2 : ¬st.postactive) : st.running := by
  refine ⟨fun hn => h1 ?_, h2⟩
  exact Or.inl hn

/-- C1 (claim C1): AnimationBase::progress returns 0 in the preactive
states and for negative elapsed time while running; returns exactly 1
when postactive, when the duration is zero, or once elapsed time
reaches the total duration for a positive (finite) iteration count; and
otherwise returns the fractional time elapsed/duration mod 1, flipped
to one minus the fraction on odd iterations in alternate direction,
remapped by (scale, offset), and passed through the timing function
(the identity for linear). -/
theorem C1_progress_characterisation {σ : Type} (a : Anim σ) (st : ABState)
    (now scale offset : ℚ) (bez : ℚ → ℚ → ℚ → ℚ → ℚ → ℚ → ℚ) :
    (st.preactive → progress a st now scale offset bez = 0) ∧
    (st.running → now - st.startTime < 0 → progress a st now scale offset bez = 0) ∧
    (¬st.preactive →
      ¬(st.running ∧ now - st.startTime < 0) →
      (st.postactive ∨ a.duration = 0 ∨
        (0 < a.iterationCount ∧ a.duration * a.iterationCount ≤ now - st.startTime)) →
      progress a st now scale offset bez = 1) ∧
    (¬st.preactive →
      ¬(now - st.startTime < 0) →
      ¬st.postactive →
      0 < a.duration →
      ¬(0 < a.iterationCount ∧ a.duration * a.iterationCount ≤ now - st.startTime) →
      progress a st now scale offset bez =
        (let frac := Int.fract ((now - st.startTime) / a.duration)
         let flipped :=
           if a.direction ∧ Odd ⌊(now - st.startTime) / a.duration⌋ then 1 - frac else frac
         match a.timing with
         | .linear => (flipped - offset) * scale
         | .bezier x1 y1 x2 y2 => bez x1 y1 x2 y2 ((flipped - offset) * scale) a.duration)) := by
  refine ⟨fun hpre => by simp [progress, hpre], ?_, ?_, ?_⟩
  · intro hrun hneg
    by_cases hpre : st.preactive
    · simp [progress, hpre]
    · simp [progress, hpre, hrun, hneg]
  · intro hpre hneg hone
    by_cases hpost : st.postactive
    · have hnr : ¬st.running := fun hr => hr.2 hpost
      simp [progress, hpre, hnr, hpost]
    · have hrun := running_of_not_preactive_not_postactive hpre hpost
      have hne : ¬(now - st.startTime < 0) := fun hc => hneg ⟨hrun, hc⟩
      rcases hone with h | h | h
      · exact absurd h hpost
      · simp [progress, hpre, hrun, hne, h]
      · simp [progress, hpre, hrun, hne, hpost, h.1, h.1.le, ge_iff_le, h.2]
  · intro hpre hne hpost hdurpos hnotend
    have hrun := running_of_not_preactive_not_postactive hpre hpost
    have h0 : (0 : ℚ) ≤ now - st.startTime := le_of_not_lt hne
    have hq : (0 : ℚ) ≤ (now - st.startTime) / a.duration := div_nonneg h0 hdurpos.le
    have htr := qtrunc_eq_floor hq
    simp only [progress, hpre, hrun, hne, hpost, if_true, if_false, iff_true, iff_false,
      eq_self_iff_true, not_false_iff]
    rw [if_neg (by simp : ¬(True ∧ False))]
    rw [if_neg (by
      rintro (hc | hd | ⟨hic, hge⟩)
      · exact hc
      · exact hdurpos.ne' hd
      · rw [if_pos hic, ge_iff_le] at hge
        exact hnotend ⟨hic, hge⟩)]
    rw [htr]
    simp only [Int.odd_iff, ← Int.self_sub_floor]
    cases a.timing <;>
    · by_cases hso : scale ≠ 1 ∨ offset ≠ 0
      · rw [if_pos hso]
      · rw [if_neg hso]
        push_neg at hso
        rw [hso.1, hso.2, sub_zero, mul_one]

theorem C1_witness :
    progress unitAnim initABState 4 1 0 bezId = 0 ∧
    progress unitAnim stLooping 10 1 0 bezId = 1 ∧
    progress unitAnim stLooping 4 1 0 bezId = 1 / 2 := by
  refine ⟨(C1_progress_characterisation unitAnim initABState 4 1 0 bezId).1 (by decide),
    (C1_progress_characterisation unitAnim stLooping 10 1 0 bezId).2.2.1
      (by decide)
      (by norm_num [stLooping, ABState.running, ABState.isnew, ABState.postactive])
      (by norm_num [stLooping, unitAnim]),
    ((C1_progress_characterisation unitAnim stLooping 4 1 0 bezId).2.2.2
      (by decide) (by norm_num [stLooping]) (by decide) (by norm_num [unitAnim])
      (by norm_num [stLooping, unitAnim])).trans
      (by norm_num [unitAnim, stLooping, Int.fract])⟩

theorem blendFuncInt_zero (f t : ℤ) : blendFuncInt f t 0 = f := by
  simp [blendFuncInt, qtrunc_intCast]

theorem blendFuncInt_one (f t : ℤ) : blendFuncInt f t 1 = t := by
  have h : (f : ℚ) + ((t : ℚ) - f) * 1 = (t : ℚ) := by ring
  rw [blendFuncInt, h, qtrunc_intCast]

theorem blendTransformOp_zero (x y : TransformOp) (h : x.kind = y.kind) :
    blendTransformOp y (some x) 0 = x := by
  obtain ⟨kx, vx⟩ := x
  obtain ⟨ky, vy⟩ := y
  dsimp only at h
  subst h
  simp only [blendTransformOp]
  rw [if_pos trivial]
  congr 1
  ring

theorem blendTransformOp_one (x y : TransformOp) (h : x.kind = y.kind) :
    blendTransformOp y (some x) 1 = y := by
  obtain ⟨kx, vx⟩ := x
  obtain ⟨ky, vy⟩ := y
  dsimp only at h
  subst h
  simp only [blendTransformOp]
  rw [if_pos trivial]
  congr 1
  ring

/-- C2 counterexample: blending visibility from HIDDEN to COLLAPSE at
progress 0 yields COLLAPSE, not the from value HIDDEN, so the claimed
round trip at progress 0 fails for the visibility strategy. -/
theorem C2_counterexample :
    blendFuncVisibility .HIDDEN .COLLAPSE 0 = .COLLAPSE ∧
    blendFuncVisibility .HIDDEN .COLLAPSE 0 ≠ .HIDDEN := by
  constructor <;> simp [blendFuncVisibility, blendFuncQ]

/-- C2 (amended): blending at progress 0 reproduces the from value and
at progress 1 the to value for the int, double, float, Length, color,
IntSize and shadow strategies on all endpoint pairs; for transform
lists whenever the two lists blend pairwise (equal length, matching
operation kinds); and for visibility except when both endpoints are
non-visible variants, where the blend returns the to endpoint at every
progress. -/
theorem C2_blend_round_trip :
    (∀ f t : ℤ, blendFuncInt f t 0 = f ∧ blendFuncInt f t 1 = t) ∧
    (∀ f t : ℚ, blendFuncQ f t 0 = f ∧ blendFuncQ f t 1 = t) ∧
    (∀ f t : ℚ, blendFuncFloat f t 0 = f ∧ blendFuncFloat f t 1 = t) ∧
    (∀ f t : RColor, blendFuncColor f t 0 = f ∧ blendFuncColor f t 1 = t) ∧
    (∀ f t : RLength, blendFuncLength f t 0 = f ∧ blendFuncLength f t 1 = t) ∧
    (∀ f t : RIntSize, blendFuncIntSize f t 0 = f ∧ blendFuncIntSize f t 1 = t) ∧
    (∀ f t : RShadowData, blendFuncShadow f t 0 = f ∧ blendFuncShadow f t 1 = t) ∧
    (∀ f t : List TransformOp, List.Forall₂ (fun x y => x.kind = y.kind) f t →
      blendFuncTransformList f t 0 = f ∧ blendFuncTransformList f t 1 = t) ∧
    (∀ f t : EVisibility, f = t ∨ f = .VISIBLE ∨ t = .VISIBLE →
      blendFuncVisibility f t 0 = f ∧ blendFuncVisibility f t 1 = t) := by
  have hq0 : ∀ f t : ℚ, f + (t - f) * 0 = f := fun f t => by ring
  have hq1 : ∀ f t : ℚ, f + (t - f) * 1 = t := fun f t => by ring
  refine ⟨fun f t => ⟨blendFuncInt_zero f t, blendFuncInt_one f t⟩,
          fun f t => ⟨hq0 f t, hq1 f t⟩,
          fun f t => ⟨hq0 f t, hq1 f t⟩,
          fun f t => ?_, fun f t => ?_, fun f t => ?_, fun f t => ?_, ?_, ?_⟩
  · cases f; cases t
    exact ⟨by simp [blendFuncColor, blendFuncInt_zero], by simp [blendFuncColor, blendFuncInt_one]⟩
  · cases f; cases t
    exact ⟨by simp [blendFuncLength]; try ring, by simp [blendFuncLength]; try ring⟩
  · cases f; cases t
    exact ⟨by simp [blendFuncIntSize, blendFuncInt_zero], by simp [blendFuncIntSize, blendFuncInt_one]⟩
  · cases f; cases t
    exact ⟨by simp [blendFuncShadow, blendFuncColor, blendFuncInt_zero],
           by simp [blendFuncShadow, blendFuncColor, blendFuncInt_one]⟩
  · intro f t h
    induction h with
    | nil => constructor <;> simp [blendFuncTransformList]
    | @cons x y xs ys hk _ ih =>
        constructor <;>
          simp [blendFuncTransformList, blendTransformOp_zero x y hk,
            blendTransformOp_one x y hk, ih.1, ih.2]
  · rintro f t hv
    cases f <;> cases t <;>
      first
        | (constructor <;> (simp [blendFuncVisibility, blendFuncQ]; done))
        | (rcases hv with h | h | h <;> simp at h)

theorem C2_witness :
    blendFuncTransformList [⟨1, 2⟩] [⟨1, 6⟩] 0 = [⟨1, 2⟩] ∧
    blendFuncVisibility .HIDDEN .VISIBLE 1 = .VISIBLE := by
  exact ⟨(C2_blend_round_trip.2.2.2.2.2.2.2.1 [⟨1, 2⟩] [⟨1, 6⟩] (by simp)).1,
         (C2_blend_round_trip.2.2.2.2.2.2.2.2 .HIDDEN .VISIBLE (by simp)).2⟩

theorem buildWrapperMap_length {σ : Type} (f : ℤ) (ws : List (PropWrapper σ))
    (i : ℕ) (m : List ℤ) : (buildWrapperMap f ws i m).length = m.length := by
  induction ws generalizing i m with
  | nil => rfl
  | cons w rest ih => simp [buildWrapperMap, ih, List.length_set]

theorem buildWrapperMap_mem {σ : Type} (f : ℤ) (ws : List (PropWrapper σ))
    (i : ℕ) (m : List ℤ) (x : ℤ) (hx : x ∈ buildWrapperMap f ws i m) :
    x ∈ m ∨ ((i : ℤ) ≤ x ∧ x < (i : ℤ) + ws.length) := by
  induction ws generalizing i m with
  | nil => exact Or.inl hx
  | cons w rest ih =>
      rcases ih (i + 1) _ hx with hmem | ⟨hl, hr⟩
      · rcases List.mem_or_eq_of_mem_set hmem with h | h
        · exact Or.inl h
        · subst h
          refine Or.inr ⟨le_refl _, ?_⟩
          simp only [List.length_cons]
          omega
      · refine Or.inr ⟨by omega, ?_⟩
        simp only [List.length_cons] at hr ⊢
        omega

theorem buildWrapperMap_getElem?_of_ne {σ : Type} (f : ℤ) (ws : List (PropWrapper σ))
    (i : ℕ) (m : List ℤ) (j : ℕ) (h : ∀ w ∈ ws, (w.prop - f).toNat ≠ j) :
    (buildWrapperMap f ws i m)[j]? = m[j]? := by
  induction ws generalizing i m with
  | nil => rfl
  | cons w rest ih =>
      rw [buildWrapperMap, ih _ _ (fun w2 hw2 => h w2 (List.mem_cons_of_mem _ hw2))]
      exact List.getElem?_set_ne (h w (List.mem_cons_self _ _))

/-- C9: a property id without a registered wrapper (the cAnimateAll
sentinel aside) makes propertiesEqual answer true and blendProperties
answer false leaving the destination style untouched — whether the id is
out of the CSS property index range or merely unregistered — and the
wrapper-index map only ever holds the sentinel or a valid index into the
wrapper vector, so no lookup reads out of range. -/
theorem C9_unknown_property_safety {σ : Type} (R : Registry σ) (hWF : R.WF)
    (prop : ℤ) (hprop : prop ≠ cAnimateAll)
    (hno : ∀ w ∈ R.wrappers, w.prop ≠ prop) (a b dst : σ) (prog : ℚ) :
    propertiesEqual R prop a b = true ∧
    blendProperties R prop dst a b prog = (false, dst) ∧
    R.wrapperMap.length = R.num ∧
    (∀ i ∈ R.wrapperMap, i = CSSPropertyInvalid ∨ (0 ≤ i ∧ i < (R.wrappers.length : ℤ))) := by
  have hslot : ∀ hin : 0 ≤ prop - R.first ∧ prop - R.first < (R.num : ℤ),
      R.wrapperMap[(prop - R.first).toNat]? = some CSSPropertyInvalid := by
    intro hin
    unfold Registry.wrapperMap
    rw [buildWrapperMap_getElem?_of_ne]
    · rw [List.getElem?_replicate, if_pos]
      rw [Int.toNat_lt hin.1]
      exact hin.2
    · intro w hw hc
      have hw0 : 0 ≤ w.prop - R.first := (hWF w hw).1
      have : w.prop - R.first = prop - R.first := by
        rw [← Int.toNat_of_nonneg hw0, ← Int.toNat_of_nonneg hin.1, hc]
      exact hno w hw (by linarith [sub_left_injective.eq_iff.mp this])
  refine ⟨?_, ?_, ?_, ?_⟩
  · unfold propertiesEqual
    rw [if_neg hprop]
    by_cases hin : 0 ≤ prop - R.first ∧ prop - R.first < (R.num : ℤ)
    · rw [if_pos hin, hslot hin]
      norm_num [CSSPropertyInvalid]
    · rw [if_neg hin]
  · unfold blendProperties
    rw [if_neg hprop]
    by_cases hin : 0 ≤ prop - R.first ∧ prop - R.first < (R.num : ℤ)
    · rw [if_pos hin, hslot hin]
      norm_num [CSSPropertyInvalid]
    · rw [if_neg hin]
  · unfold Registry.wrapperMap
    rw [buildWrapperMap_length, List.length_replicate]
  · intro i hi
    rcases buildWrapperMap_mem _ _ _ _ _ hi with h | ⟨h1, h2⟩
    · exact Or.inl (List.eq_of_mem_replicate h)
    · exact Or.inr ⟨by exact_mod_cast h1, by simpa using h2⟩

theorem find?_mapUpdate_ne {σ : Type} (p q : ℤ) (v : ImplicitAnim σ) (h : q ≠ p) :
    ∀ m : TransMap σ,
      (m.map (fun e => if e.1 = p then (p, v) else e)).find? (fun e => decide (e.1 = q))
        = m.find? (fun e => decide (e.1 = q))
  | [] => rfl
  | e :: rest => by
      by_cases hep : e.1 = p
      · rw [List.map_cons, if_pos hep]
        rw [List.find?_cons_of_neg _ (by simp; exact fun hc => h hc.symm),
            List.find?_cons_of_neg _ (by simp; exact fun hc => h (hc.symm.trans hep))]
        exact find?_mapUpdate_ne p q v h rest
      · rw [List.map_cons, if_neg hep]
        by_cases heq : e.1 = q
        · rw [List.find?_cons_of_pos _ (by simp [heq]), List.find?_cons_of_pos _ (by simp [heq])]
        · rw [List.find?_cons_of_neg _ (by simp [heq]), List.find?_cons_of_neg _ (by simp [heq])]
          exact find?_mapUpdate_ne p q v h rest

theorem lookupT_setT_ne {σ : Type} (m : TransMap σ) (p q : ℤ) (v : ImplicitAnim σ)
    (h : q ≠ p) : lookupT (setT m p v) q = lookupT m q := by
  unfold setT
  split
  · unfold lookupT
    rw [find?_mapUpdate_ne p q v h]
  · unfold lookupT
    rw [List.find?_append]
    have h2 : List.find? (fun e => decide (e.1 = q)) [(p, v)] = none := by
      rw [List.find?_cons_of_neg _ (by simp; exact fun hc => h hc.symm)]
      rfl
    rw [h2]
    cases List.find? (fun e => decide (e.1 = q)) m <;> rfl

theorem lookupT_removeT_ne {σ : Type} (m : TransMap σ) (p q : ℤ) (h : q ≠ p) :
    lookupT (removeT m p) q = lookupT m q := by
  unfold removeT lookupT
  congr 1
  induction m with
  | nil => rfl
  | cons e rest ih =>
      by_cases hep : e.1 = p
      · rw [List.filter_cons_of_neg (by simp [hep])]
        rw [List.find?_cons_of_neg _ (by simp; exact fun hc => h (hc.symm.trans hep))]
        exact ih
      · rw [List.filter_cons_of_pos (by simp [hep])]
        by_cases heq : e.1 = q
        · rw [List.find?_cons_of_pos _ (by simp [heq]), List.find?_cons_of_pos _ (by simp [heq])]
        · rw [List.find?_cons_of_neg _ (by simp [heq]), List.find?_cons_of_neg _ (by simp [heq])]
          exact ih

theorem processTransProp_preserves {σ : Type} (R : Registry σ) (a : Anim σ)
    (q : ℤ) (cur tgt : σ) (m : TransMap σ) (prop : ℤ)
    (heq : propertiesEqual R prop cur tgt = true)
    (hm : lookupT m prop = none) :
    lookupT (processTransProp R a q cur tgt m).1 prop = none ∧
    prop ∉ (processTransProp R a q cur tgt m).2 := by
  by_cases hqp : q = prop
  · subst hqp
    unfold processTransProp
    rw [hm, if_neg (by simp [heq])]
    exact ⟨hm, by simp⟩
  · have hqp2 : prop ≠ q := fun hc => hqp hc.symm
    unfold processTransProp
    cases hl : lookupT m q with
    | some implAnim =>
        dsimp only
        by_cases hsplit : isTargetPropertyEqual R implAnim q tgt = true
        · rw [if_neg (by simp [hsplit])]
          exact ⟨hm, by simp⟩
        · rw [if_pos (by simp [hsplit])]
          refine ⟨?_, by simp [hqp2]⟩
          rw [lookupT_setT_ne _ _ _ _ hqp2, lookupT_removeT_ne _ _ _ hqp2]
          exact hm
    | none =>
        dsimp only
        by_cases hq2 : propertiesEqual R q cur tgt = true
        · rw [if_neg (by simp [hq2])]
          exact ⟨hm, by simp⟩
        · rw [if_pos (by simp [hq2])]
          refine ⟨?_, by simp [hqp2]⟩
          rw [lookupT_setT_ne _ _ _ _ hqp2]
          exact hm

theorem processTransDecl_preserves {σ : Type} (R : Registry σ) (cur tgt : σ)
    (a : Anim σ) (acc : TransMap σ × List ℤ) (prop : ℤ)
    (heq : propertiesEqual R prop cur tgt = true)
    (hm : lookupT acc.1 prop = none) (ht : prop ∉ acc.2) :
    lookupT (processTransDecl R cur tgt acc a).1 prop = none ∧
    prop ∉ (processTransDecl R cur tgt acc a).2 := by
  unfold processTransDecl
  split
  · exact ⟨hm, ht⟩
  · split
    · -- the cAnimateAll expansion: fold over the registry indices
      have main : ∀ (idxs : List ℕ) (acc2 : TransMap σ × List ℤ),
          lookupT acc2.1 prop = none → prop ∉ acc2.2 →
          lookupT (idxs.foldl
            (fun acc2 i =>
              let prop2 := R.getPropertyAtIndex (i : ℤ)
              let r := processTransProp R a prop2 cur tgt acc2.1
              (r.1, acc2.2 ++ r.2)) acc2).1 prop = none ∧
          prop ∉ (idxs.foldl
            (fun acc2 i =>
              let prop2 := R.getPropertyAtIndex (i : ℤ)
              let r := processTransProp R a prop2 cur tgt acc2.1
              (r.1, acc2.2 ++ r.2)) acc2).2 := by
        intro idxs
        induction idxs with
        | nil => exact fun acc2 h1 h2 => ⟨h1, h2⟩
        | cons i rest ih =>
            intro acc2 h1 h2
            refine ih _ ?_ ?_
            · exact (processTransProp_preserves R a _ cur tgt acc2.1 prop heq h1).1
            · simp only [List.mem_append]
              rintro (hc | hc)
              · exact h2 hc
              · exact (processTransProp_preserves R a _ cur tgt acc2.1 prop heq h1).2 hc
      exact main _ acc hm ht
    · dsimp only
      constructor
      · exact (processTransProp_preserves R a _ cur tgt acc.1 prop heq hm).1
      · simp only [List.mem_append]
        rintro (hc | hc)
        · exact ht hc
        · exact (processTransProp_preserves R a _ cur tgt acc.1 prop heq hm).2 hc

/-- C3 (amended): when no ImplicitAnimation for the property exists yet
and the current and target styles agree on it under the registered
equals strategy, updateTransitions creates no ImplicitAnimation for
that property and its map keeps no entry for it.  (When one already
exists with a stale locked target, the source replaces it with a fresh
ImplicitAnimation regardless of that equality — see the
counterexample.) -/
theorem C3_no_new_transition_when_equal {σ : Type} (R : Registry σ)
    (decls : List (Anim σ)) (cur tgt : σ) (m : TransMap σ) (prop : ℤ)
    (hnone : lookupT m prop = none)
    (heq : propertiesEqual R prop cur tgt = true) :
    lookupT (updateTransitions R decls (some cur) tgt m).1 prop = none ∧
    prop ∉ (updateTransitions R decls (some cur) tgt m).2 := by
  unfold updateTransitions
  have main : ∀ (l : List (Anim σ)) (acc : TransMap σ × List ℤ),
      lookupT acc.1 prop = none → prop ∉ acc.2 →
      lookupT (l.foldl (processTransDecl R cur tgt) acc).1 prop = none ∧
      prop ∉ (l.foldl (processTransDecl R cur tgt) acc).2 := by
    intro l
    induction l with
    | nil => exact fun acc h1 h2 => ⟨h1, h2⟩
    | cons a rest ih =>
        intro acc h1 h2
        exact ih _ (processTransDecl_preserves R cur tgt a acc prop heq h1 h2).1
          (processTransDecl_preserves R cur tgt a acc prop heq h1 h2).2
  exact main decls (m, []) hnone (by simp)

/-- C3 counterexample: with the current and target styles equal on the
property (value 3), an existing ImplicitAnimation locked on old target 7
still causes updateTransitions to construct a fresh ImplicitAnimation
for the property, contradicting the claim that equal values mean no
ImplicitAnimation is created. -/
theorem C3_counterexample :
    propertiesEqual RZ 1001 (3 : ℤ) 3 = true ∧
    (updateTransitions RZ [declZ] (some (3 : ℤ)) 3 [(1001, staleTransition)]).2 = [1001] ∧
    (updateTransitions RZ [declZ] (some (3 : ℤ)) 3 [(1001, staleTransition)]).2 ≠ [] := by
  refine ⟨by decide, ?_, ?_⟩ <;> decide

theorem C3_witness :
    lookupT (updateTransitions RZ [declZ] (some (3 : ℤ)) 3 []).1 1001 = none ∧
    1001 ∉ (updateTransitions RZ [declZ] (some (3 : ℤ)) 3 []).2 :=
  C3_no_new_transition_when_equal RZ [declZ] 3 3 [] 1001 rfl (by decide)

/-- C4: a transition declaration with zero duration and non-positive
delay contributes nothing to updateTransitions — dropping it from the
declaration list leaves the transition map, the created-animation trace
and isAnimatingProperty identical, so no ImplicitAnimation is ever
instantiated on its account. -/
theorem C4_empty_transition_skipped {σ : Type} (R : Registry σ) (a : Anim σ)
    (ha : a.duration = 0) (hd : a.delay ≤ 0) (pre post : List (Anim σ))
    (cur? : Option σ) (tgt : σ) (m : TransMap σ) (kfs : KfMap σ) (p : ℤ) (rn : Bool) :
    updateTransitions R (pre ++ a :: post) cur? tgt m
      = updateTransitions R (pre ++ post) cur? tgt m ∧
    compositeIsAnimatingProperty kfs (updateTransitions R (pre ++ a :: post) cur? tgt m).1 p rn
      = compositeIsAnimatingProperty kfs (updateTransitions R (pre ++ post) cur? tgt m).1 p rn := by
  have h1 : updateTransitions R (pre ++ a :: post) cur? tgt m
      = updateTransitions R (pre ++ post) cur? tgt m := by
    unfold updateTransitions
    cases cur? with
    | none => rfl
    | some cur =>
        dsimp only
        rw [List.foldl_append, List.foldl_append, List.foldl_cons]
        congr 1
        unfold processTransDecl
        rw [if_pos ⟨ha, hd⟩]
  exact ⟨h1, by rw [h1]⟩

theorem C4_witness :
    updateTransitions RZ ([] ++ emptyDeclZ :: []) (some (3 : ℤ)) 4 []
      = updateTransitions RZ ([] ++ []) (some (3 : ℤ)) 4 [] :=
  (C4_empty_transition_skipped RZ emptyDeclZ rfl (le_refl 0) [] [] (some 3) 4 [] [] 1001 true).1

theorem C9_witness :
    propertiesEqual RZ 1002 (5 : ℤ) 7 = true ∧
    blendProperties RZ 1002 (9 : ℤ) 5 7 (1 / 2) = (false, 9) := by
  have h := C9_unknown_property_safety RZ (by decide) 1002 (by decide) (by decide) 5 7 9 (1 / 2)
  exact ⟨h.1, h.2.1⟩

/-- C6: when KeyframeAnimation::animate finds no bracketing keyframe
pair for the current fractional time (one of the two styles of the scan
is missing), it feeds STATE_INPUT_END_ANIMATION to its state machine —
landing in DONE — and returns with the output style untouched. -/
theorem C6_degenerate_keyframes_force_end {σ : Type} (R : Registry σ)
    (ka : KFAnim σ) (tgt : σ) (out : OutStyle σ) (env : Env)
    (bez : ℚ → ℚ → ℚ → ℚ → ℚ → ℚ → ℚ) (ka1 : KFAnim σ)
    (hka1 : ka1 = if ka.base.isnew ∧ ka.anim.playState
        then { ka with base := updateStateMachine ka.anim ka.base .START_ANIMATION (-1) env }
        else ka)
    (hpost : ¬ka1.base.postactive)
    (hwait : ¬(ka1.base.waitingToStart ∧ ka1.anim.delay > 0))
    (hscan : (findKeyframePair ka1.anim.keyframeList
                (kfFractionalTime ka1.anim ka1.base env.now)).1 = none ∨
             (findKeyframePair ka1.anim.keyframeList
                (kfFractionalTime ka1.anim ka1.base env.now)).2.1 = none) :
    kfAnimate R ka tgt out env bez
      = ({ ka1 with base := updateStateMachine ka1.anim ka1.base .END_ANIMATION (-1) env }, out) ∧
    (kfAnimate R ka tgt out env bez).1.base.animState = .DONE ∧
    (kfAnimate R ka tgt out env bez).2 = out := by
  have hmain : kfAnimate R ka tgt out env bez
      = ({ ka1 with base := updateStateMachine ka1.anim ka1.base .END_ANIMATION (-1) env }, out) := by
    simp only [kfAnimate]
    rw [← hka1]
    rw [if_neg hpost, if_neg hwait]
    rcases hfp : findKeyframePair ka1.anim.keyframeList
        (kfFractionalTime ka1.anim ka1.base env.now) with ⟨a?, b?, sc, off⟩
    rw [hfp] at hscan
    cases a? with
    | none => rfl
    | some fs =>
        cases b? with
        | none => rfl
        | some ts =>
            rcases hscan with h | h <;> exact absurd h (by simp)
  refine ⟨hmain, ?_, ?_⟩
  · rw [hmain]
    simp [updateStateMachine]
  · rw [hmain]

theorem C6_witness :
    (kfAnimate RZ kaEmptyKeyframes (4 : ℤ) none env0 bezId).1.base.animState = .DONE ∧
    (kfAnimate RZ kaEmptyKeyframes (4 : ℤ) none env0 bezId).2 = none := by
  have h := C6_degenerate_keyframes_force_end RZ kaEmptyKeyframes (4 : ℤ) none env0 bezId
    (if kaEmptyKeyframes.base.isnew ∧ kaEmptyKeyframes.anim.playState
      then { kaEmptyKeyframes with
              base := updateStateMachine kaEmptyKeyframes.anim kaEmptyKeyframes.base
                        .START_ANIMATION (-1) env0 }
      else kaEmptyKeyframes)
    rfl (by decide) (by decide) (by decide)
  exact ⟨h.2.1, h.2.2⟩

theorem primeEventTimers_animState {σ : Type} (a : Anim σ) (st : ABState) (n : ℚ) :
    (primeEventTimers a st n).animState = .LOOPING ∨
    (primeEventTimers a st n).animState = .ENDING := by
  unfold primeEventTimers
  exact ite_eq_or_eq _ _ _

theorem handleStartTimeSet_state {σ : Type} (a : Anim σ) (st : ABState) (p n : ℚ) :
    (handleStartTimeSet a st p n).animState = .LOOPING ∨
    (handleStartTimeSet a st p n).animState = .ENDING := by
  unfold handleStartTimeSet
  split <;> exact primeEventTimers_animState _ _ _

theorem handleStartTimeSet_startTime {σ : Type} (a : Anim σ) (st : ABState) (p n : ℚ) :
    (handleStartTimeSet a st p n).startTime = if st.startTime ≤ 0 then p else st.startTime := by
  unfold handleStartTimeSet
  split
  case isTrue h => rfl
  case isFalse h => rfl

/-- C7: in START_WAIT_RESPONSE, a START_TIME_SET input adopts the
confirmed time only while the start time is still unset (the
constructor's 0, or a reset); an already-established positive start time
is kept, and after a first confirmation any further START_TIME_SET input
leaves the start time unchanged (the machine has left
START_WAIT_RESPONSE, and no other state writes the start time on that
input). -/
theorem C7_start_time_set_idempotent {σ : Type} (a : Anim σ) (st : ABState)
    (t1 t2 : ℚ) (env env2 : Env) (h : st.animState = .START_WAIT_RESPONSE) :
    (0 < st.startTime →
      (updateStateMachine a st .START_TIME_SET t1 env).startTime = st.startTime) ∧
    (st.startTime ≤ 0 →
      (updateStateMachine a st .START_TIME_SET t1 env).startTime = t1) ∧
    (updateStateMachine a (updateStateMachine a st .START_TIME_SET t1 env)
        .START_TIME_SET t2 env2).startTime
      = (updateStateMachine a st .START_TIME_SET t1 env).startTime := by
  have hstep : updateStateMachine a st .START_TIME_SET t1 env
      = handleStartTimeSet a st t1 env.now := by
    unfold updateStateMachine
    rw [h]
    rfl
  refine ⟨?_, ?_, ?_⟩
  · intro hpos
    rw [hstep, handleStartTimeSet_startTime]
    rw [if_neg (not_le.mpr hpos)]
  · intro hle
    rw [hstep, handleStartTimeSet_startTime, if_pos hle]
  · rw [hstep]
    rcases handleStartTimeSet_state a st t1 env.now with h2 | h2 <;>
    · unfold updateStateMachine
      rw [h2]
      rfl

theorem C7_witness :
    (updateStateMachine unitAnim stWaitResp .START_TIME_SET 5 env0).startTime = 5 ∧
    (updateStateMachine unitAnim stWaitResp3 .START_TIME_SET 5 env0).startTime = 3 := by
  refine ⟨(C7_start_time_set_idempotent unitAnim stWaitResp 5 0 env0 env0 rfl).2.1 (by decide),
    ((C7_start_time_set_idempotent unitAnim stWaitResp3 5 0 env0 env0 rfl).1 (by decide)).trans rfl⟩

@[simp] theorem animState_ite (c : Prop) [Decidable c] (x y : ABState) :
    (if c then x else y).animState = if c then x.animState else y.animState :=
  apply_ite _ _ _ _

@[simp] theorem pauseTime_ite (c : Prop) [Decidable c] (x y : ABState) :
    (if c then x else y).pauseTime = if c then x.pauseTime else y.pauseTime :=
  apply_ite _ _ _ _

@[simp] theorem isPausedState_ite (c : Prop) [Decidable c] (x y : AnimState) :
    (if c then x else y).isPausedState = if c then x.isPausedState else y.isPausedState :=
  apply_ite _ _ _ _

@[simp] theorem isPausedState_NEW : ¬AnimState.NEW.isPausedState := fun h => h

@[simp] theorem isPausedState_SWT : ¬AnimState.START_WAIT_TIMER.isPausedState := fun h => h

@[simp] theorem isPausedState_SWSA : ¬AnimState.START_WAIT_STYLE_AVAILABLE.isPausedState := fun h => h

@[simp] theorem isPausedState_SWR : ¬AnimState.START_WAIT_RESPONSE.isPausedState := fun h => h

@[simp] theorem isPausedState_LOOPING : ¬AnimState.LOOPING.isPausedState := fun h => h

@[simp] theorem isPausedState_ENDING : ¬AnimState.ENDING.isPausedState := fun h => h

@[simp] theorem isPausedState_DONE : ¬AnimState.DONE.isPausedState := fun h => h

@[simp] theorem isPausedState_PWT : AnimState.PAUSED_WAIT_TIMER.isPausedState := trivial

@[simp] theorem isPausedState_PWR : AnimState.PAUSED_WAIT_RESPONSE.isPausedState := trivial

@[simp] theorem isPausedState_PRUN : AnimState.PAUSED_RUN.isPausedState := trivial

@[simp] theorem handleStartTimeSet_not_pausedState {σ : Type} (a : Anim σ)
    (st : ABState) (p n : ℚ) : ¬(handleStartTimeSet a st p n).animState.isPausedState := by
  rcases handleStartTimeSet_state a st p n with h | h <;>
    simp [h, AnimState.isPausedState]

@[simp] theorem primeEventTimers_not_pausedState {σ : Type} (a : Anim σ)
    (st : ABState) (n : ℚ) : ¬(primeEventTimers a st n).animState.isPausedState := by
  rcases primeEventTimers_animState a st n with h | h <;>
    simp [h, AnimState.isPausedState]

/-- C5 (amended): in every reachable state, being in one of the paused
shadow states implies pauseTime is non-negative; the converse direction
and the exclusion from DONE fail (see the counterexample): pausing
bookkeeping survives a force-end, so DONE with pauseTime at or above 0
is reachable. -/
theorem C5_paused_state_pause_time {σ : Type} (a : Anim σ) (st : ABState)
    (h : Reachable a st) : st.animState.isPausedState → 0 ≤ st.pauseTime := by
  induction h with
  | init => intro hp; exact absurd hp (by simp [initABState])
  | step st input param env hr hnow ih =>
      intro hp2
      cases input
      case MAKE_NEW => simp [updateStateMachine] at hp2
      case RESTART_ANIMATION =>
        simp [updateStateMachine, startFromNew] at hp2
      case END_ANIMATION =>
        simp [updateStateMachine] at hp2
      case PAUSE_OVERRIDE =>
        by_cases hc : st.animState = .START_WAIT_RESPONSE
        · simp only [updateStateMachine, if_pos hc] at hp2
          exact absurd hp2 (handleStartTimeSet_not_pausedState a st env.now env.now)
        · simp only [updateStateMachine, if_neg hc] at hp2 ⊢
          exact ih hp2
      case RESUME_OVERRIDE =>
        simp only [updateStateMachine] at hp2 ⊢
        exact ih hp2
      all_goals
        cases hst : st.animState <;>
          simp_all [updateStateMachine, startFromNew]

theorem reachable_pausedSt : Reachable unitAnim pausedSt :=
  Reachable.step _ _ _ _
    (Reachable.step _ _ _ _ Reachable.init (by decide)) (by decide)

/-- C5 counterexample: force-ending a paused animation reaches the
terminal DONE state with pauseTime still at its non-negative snapshot,
so pauseTime >= 0 neither implies a paused state nor excludes DONE. -/
theorem C5_counterexample :
    Reachable unitAnim pausedThenEnded ∧
    pausedThenEnded.animState = .DONE ∧
    0 ≤ pausedThenEnded.pauseTime ∧
    ¬pausedThenEnded.animState.isPausedState := by
  refine ⟨?_, by decide, by decide, by decide⟩
  exact Reachable.step _ _ _ _ reachable_pausedSt (by decide)

theorem C5_witness : 0 ≤ pausedSt.pauseTime :=
  C5_paused_state_pause_time unitAnim pausedSt reachable_pausedSt (by decide)

theorem transitionsLoop_trace {σ : Type} (R : Registry σ) (cur tgt : σ) (env : Env)
    (bez : ℚ → ℚ → ℚ → ℚ → ℚ → ℚ → ℚ) :
    ∀ (m : TransMap σ) (acc : TransMap σ × OutStyle σ × List Ev),
      (∀ e ∈ acc.2.2, e.isTrans = true) →
      ∀ e ∈ (transitionsLoop R cur tgt env bez acc m).2.2, e.isTrans = true := by
  intro m
  induction m with
  | nil => exact fun acc h => h
  | cons x rest ih =>
      intro acc h
      refine ih _ ?_
      intro e he
      rcases List.mem_append.mp he with he | he
      · exact h e he
      · rcases List.mem_singleton.mp he with rfl
        rfl

theorem kfLoop_trace {σ : Type} (R : Registry σ) (tgt : σ) (env : Env)
    (bez : ℚ → ℚ → ℚ → ℚ → ℚ → ℚ → ℚ) :
    ∀ (anims : List (Anim σ)) (acc : KfMap σ × OutStyle σ × List Ev),
      (∀ e ∈ acc.2.2, e.isKf = true) →
      ∀ e ∈ (kfLoop R tgt env bez acc anims).2.2, e.isKf = true := by
  intro anims
  induction anims with
  | nil => exact fun acc h => h
  | cons a rest ih =>
      intro acc h
      refine ih _ ?_
      intro e he
      dsimp only at he
      by_cases hv : a.isValidAnimation = true
      · rw [if_pos hv] at he
        rcases hk : lookupK acc.1 a.name with _ | kf
        · rw [hk] at he
          exact h e he
        · rw [hk] at he
          dsimp only at he
          rcases List.mem_append.mp he with he | he
          · exact h e he
          · rcases List.mem_singleton.mp he with rfl
            rfl
      · rw [if_neg hv] at he
        exact h e he

theorem styleAvailableFold_snd {σ : Type} (env : Env) :
    ∀ (l : List (KFAnim σ)) (m0 : KfMap σ) (t0 : List (ℕ × ℤ)),
      (l.foldl
        (fun (acc : KfMap σ × List (ℕ × ℤ)) kf =>
          if kf.base.waitingForStyleAvailable then
            (setK acc.1 kf.name
               { kf with base := updateStateMachine kf.anim kf.base .STYLE_AVAILABLE (-1) env },
             acc.2 ++ [(kf.name, kf.index)])
          else acc)
        (m0, t0)).2
      = t0 ++ (l.filter (fun kf => decide kf.base.waitingForStyleAvailable)).map
          (fun kf => (kf.name, kf.index)) := by
  intro l
  induction l with
  | nil => intro m0 t0; simp
  | cons kf rest ih =>
      intro m0 t0
      by_cases hw : kf.base.waitingForStyleAvailable
      · rw [List.foldl_cons, if_pos hw, ih,
          List.filter_cons_of_pos (by simpa using hw)]
        simp
      · rw [List.foldl_cons, if_neg hw, ih,
          List.filter_cons_of_neg (by simpa using hw)]

/-- C8: within one CompositeAnimation::animate pass every transition
advancement precedes every keyframe-animation advancement (in the call
trace, an event after a keyframe event is again a keyframe event); and
when styleAvailable has waiters, the keyframe animations released in
that call are exactly the waiting ones, processed in declaration order
(their indices are non-decreasing along the processing sequence). -/
theorem C8_transitions_before_keyframes {σ : Type} [DecidableEq σ] (R : Registry σ)
    (cs : CompositeState σ) (cur? : Option σ) (tgt : σ)
    (tgtTransitions : List (Anim σ)) (curAnims tgtAnims : Option (List (Anim σ)))
    (env : Env) (bez : ℚ → ℚ → ℚ → ℚ → ℚ → ℚ → ℚ) :
    ((compositeAnimate R cs cur? tgt tgtTransitions curAnims tgtAnims env bez).2.2).Pairwise
      (fun x y => x.isKf = true → y.isKf = true) ∧
    (cs.numStyleAvailableWaiters ≠ 0 →
      ((compositeStyleAvailable cs env).2.map Prod.snd).Pairwise (· ≤ ·) ∧
      (compositeStyleAvailable cs env).2.Perm
        (((cs.keyframes.map (·.2)).filter
            (fun kf => decide kf.base.waitingForStyleAvailable)).map
          (fun kf => (kf.name, kf.index)))) := by
  have main : ∀ (t1 t2 : List Ev), (∀ e ∈ t1, e.isTrans = true) →
      (∀ e ∈ t2, e.isKf = true) →
      (t1 ++ t2).Pairwise (fun x y => x.isKf = true → y.isKf = true) := by
    intro t1 t2 h1 h2
    rw [List.pairwise_append]
    refine ⟨List.pairwise_of_forall_mem_list ?_, List.pairwise_of_forall_mem_list ?_, ?_⟩
    · intro x hx y _ hxk
      have := h1 x hx
      cases x <;> simp_all [Ev.isKf, Ev.isTrans]
    · intro x _ y hy _
      exact h2 y hy
    · intro x _ y hy _
      exact h2 y hy
  constructor
  · cases cur? with
    | none =>
        refine main _ _ (by simp) ?_
        split
        · exact kfLoop_trace R tgt env bez _ _ (by simp)
        · intro e he
          exact absurd he (by simp)
    | some cur =>
        refine main _ _ (transitionsLoop_trace R cur tgt env bez _ _ (by simp)) ?_
        split
        · exact kfLoop_trace R tgt env bez _ _ (by simp)
        · intro e he
          exact absurd he (by simp)
  · intro hcnt
    unfold compositeStyleAvailable
    rw [if_neg hcnt]
    have hrel := styleAvailableFold_snd env
      ((cs.keyframes.map (·.2)).mergeSort (fun x y => decide (x.index ≤ y.index)))
      cs.keyframes []
    constructor
    · rw [hrel, List.nil_append]
      have hsorted : (((cs.keyframes.map (·.2)).mergeSort
          (fun x y => decide (x.index ≤ y.index))).Pairwise
            (fun x y => decide (x.index ≤ y.index) = true)) := by
        refine List.sorted_mergeSort ?_ ?_ _
        · intro x y z h1 h2
          simp only [decide_eq_true_eq] at *
          omega
        · intro x y
          simp [le_total]
      have hfilter := hsorted.filter (fun kf => decide kf.base.waitingForStyleAvailable)
      rw [List.pairwise_map, List.pairwise_map]
      refine hfilter.imp ?_
      intro x y h
      simpa using h
    · rw [hrel, List.nil_append]
      refine List.Perm.map _ (List.Perm.filter _ ?_)
      exact List.mergeSort_perm _ _

theorem C8_witness :
    ((compositeStyleAvailable cs8 env0).2.map Prod.snd).Pairwise (· ≤ ·) ∧
    ((compositeAnimate RZ cs8 none (0 : ℤ) [] none none env0 bezId).2.2).Pairwise
      (fun x y => x.isKf = true → y.isKf = true) :=
  ⟨((C8_transitions_before_keyframes RZ cs8 none 0 [] none none env0 bezId).2
      (by decide)).1,
   (C8_transitions_before_keyframes RZ cs8 none 0 [] none none env0 bezId).1⟩

/-- C10: updateAnimations hands back newStyle itself when the document
is missing or in the page cache, or when neither the old style nor the
new style carries an animation or transition list; and whenever the
composite animate step produced a fresh blended style (not the target
itself) that has an auto z-index together with opacity below 1 or a
transform, the returned style is that blended style with its z-index
set to 0. -/
theorem C10_update_animations_contract {σ : Type} [DecidableEq σ] (R : Registry σ)
    (ops : StyleOps σ) (doc : Bool) (oldStyle : Option σ) (newStyle : σ)
    (cs : CompositeState σ) (env : Env) (bez : ℚ → ℚ → ℚ → ℚ → ℚ → ℚ → ℚ) :
    (doc = true →
      controllerUpdateAnimations R ops doc oldStyle newStyle cs env bez
        = (newStyle, true, cs)) ∧
    (doc = false →
      ((oldStyle.isNone ||
          ((oldStyle.bind ops.animations).isNone && (oldStyle.bind ops.transitions).isNone)) &&
        (ops.animations newStyle).isNone && (ops.transitions newStyle).isNone) = true →
      controllerUpdateAnimations R ops doc oldStyle newStyle cs env bez
        = (newStyle, true, cs)) ∧
    (∀ blended : σ,
      doc = false →
      ((oldStyle.isNone ||
          ((oldStyle.bind ops.animations).isNone && (oldStyle.bind ops.transitions).isNone)) &&
        (ops.animations newStyle).isNone && (ops.transitions newStyle).isNone) = false →
      (compositeAnimate R cs oldStyle newStyle ((ops.transitions newStyle).getD [])
          (oldStyle.bind ops.animations) (ops.animations newStyle) env bez).2.1
        = some (false, blended) →
      ops.hasAutoZIndex blended = true →
      (ops.opacity blended < 1 ∨ ops.hasTransform blended = true) →
      (controllerUpdateAnimations R ops doc oldStyle newStyle cs env bez).1
        = ops.setZIndex blended 0 ∧
      (controllerUpdateAnimations R ops doc oldStyle newStyle cs env bez).2.1 = false) := by
  refine ⟨?_, ?_, ?_⟩
  · intro hdoc
    unfold controllerUpdateAnimations
    rw [if_pos (by simp [hdoc])]
  · intro hdoc hcond
    unfold controllerUpdateAnimations
    rw [if_neg (by simp [hdoc]), if_pos hcond]
  · intro blended hdoc hcond hcomp hauto hvis
    unfold controllerUpdateAnimations
    rw [if_neg (by simp [hdoc]), if_neg (by simp [hcond])]
    dsimp only
    rw [hcomp]
    dsimp only
    rw [if_neg (by simp), if_pos ⟨hauto, hvis⟩]
    exact ⟨rfl, rfl⟩

theorem C10_witness :
    controllerUpdateAnimations RZ ops10 true (some 3) (4 : ℤ) cs10 env0 bezId
      = ((4 : ℤ), true, cs10) ∧
    (controllerUpdateAnimations RZ ops10 false (some 3) (4 : ℤ) cs10 env0 bezId).1 = 0 := by
  refine ⟨(C10_update_animations_contract RZ ops10 true (some 3) 4 cs10 env0 bezId).1 rfl, ?_⟩
  have h := (C10_update_animations_contract RZ ops10 false (some 3) 4 cs10 env0 bezId).2.2
    4 rfl (by decide) (by decide) (by decide) (by decide)
  exact h.1.trans (by decide)

end WebCoreAnim
